import Mathlib

/-!
Verification development for the AI form-builder repository.

We give a shallow embedding of the parts of the code that the claims
concern: the JSON conversion of the generation pipeline
(`engine/form_builder.py`), the conversational form-assistant node
functions (`engine/form_chat.py`), the page-level persistence helpers
(`Form_Builder_Page.py`) and the slider-bounds extraction
(`helpers/streamlit_component.py`).  Machine integers play no role here;
everything is strings, lists and JSON-like trees.  The language-model
completion service is external: each node function takes the completion
result as an explicit argument.
-/

namespace FormBuilder

/-! ## Python string primitives used by the code -/

/-- Python `str.isspace` characters relevant to `str.strip()` (ASCII part). -/
def isPyWs (c : Char) : Bool :=
  c = ' ' || c = '\t' || c = '\n' || c = '\r' || c = '\x0b' || c = '\x0c'

/-- Python `str.strip()`: drop whitespace from both ends. -/
def pyStrip (s : String) : String :=
  String.mk (((s.toList.dropWhile isPyWs).reverse.dropWhile isPyWs).reverse)

/-- Python `str.lower()` (ASCII part, which covers every string the code
compares against). -/
def pyLower (s : String) : String :=
  String.mk (s.toList.map Char.toLower)

/-- `List.isPrefixOf` specialised to characters, as an executable check. -/
def charsPrefix : List Char → List Char → Bool
  | [], _ => true
  | _ :: _, [] => false
  | p :: ps, c :: cs => p = c && charsPrefix ps cs

/-- One left-to-right, non-rescanning pass of Python `str.replace(pat, repl)`
on character lists; `fuel` bounds the recursion (the input length suffices
because every step consumes at least one character when `pat` is nonempty). -/
def replaceChars (pat repl : List Char) : Nat → List Char → List Char
  | _, [] => []
  | 0, cs => cs
  | fuel + 1, c :: cs =>
    if charsPrefix pat (c :: cs) then
      repl ++ replaceChars pat repl fuel (List.drop pat.length (c :: cs))
    else
      c :: replaceChars pat repl fuel cs

/-- Python `s.replace(pat, repl)` for a nonempty `pat`. -/
def pyReplace (pat repl s : String) : String :=
  String.mk (replaceChars pat.toList repl.toList s.toList.length s.toList)

/-- Split a character list at every character satisfying `d`; produces an
empty piece for each pair of adjacent delimiters and at the ends, exactly
like splitting on single characters. -/
def splitCharsAux (d : Char → Bool) : List Char → List Char → List String
  | acc, [] => [String.mk acc.reverse]
  | acc, c :: cs =>
    if d c then String.mk acc.reverse :: splitCharsAux d [] cs
    else splitCharsAux d (c :: acc) cs

/-- Split a string at every delimiter character. -/
def splitChars (d : Char → Bool) (s : String) : List String :=
  splitCharsAux d [] s.toList

/-- `re.split` on a character-class regex with `+`: split at every maximal
run of delimiter characters, keeping the (possibly empty) pieces at the two
ends, with no empty pieces in the interior. -/
def splitRunsAux (d : Char → Bool) : Nat → List Char → List Char → List String
  | _, acc, [] => [String.mk acc.reverse]
  | 0, acc, cs => [String.mk (acc.reverse ++ cs)]
  | fuel + 1, acc, c :: cs =>
    if d c then
      String.mk acc.reverse :: splitRunsAux d fuel [] (cs.dropWhile d)
    else
      splitRunsAux d fuel (c :: acc) cs

/-- `re.split(r"[...]+", s)` where the class holds the characters with `d`;
the fuel of `splitRunsAux` is the input length, which every step consumes. -/
def splitRuns (d : Char → Bool) (s : String) : List String :=
  splitRunsAux d s.toList.length [] s.toList

/-- Python `int(s)` on a plain decimal literal: optional surrounding
whitespace, an optional sign, then at least one digit; anything else raises
`ValueError`, modelled as `none`. -/
def pyInt (s : String) : Option Int :=
  let t := (pyStrip s).toList
  let core : List Char → Option Int := fun digits =>
    if digits ≠ [] && digits.all Char.isDigit then
      some (Int.ofNat (digits.foldl (fun acc c => acc * 10 + (c.toNat - '0'.toNat)) 0))
    else none
  match t with
  | '-' :: rest => (core rest).map (fun n => -n)
  | '+' :: rest => core rest
  | rest => core rest

/-! ## JSON values and `json.loads`

The repository decodes model output with Python `json.loads`.  We model
JSON values as a tree and `json.loads` as a fuel-bounded recursive-descent
parser over the standard JSON grammar.  Numeric literals are kept as their
source lexemes, which is enough to compare decoded documents. -/

inductive Json where
  | null : Json
  | bool : Bool → Json
  | num : String → Json
  | str : String → Json
  | arr : List Json → Json
  | obj : List (String × Json) → Json
deriving Repr, Inhabited

/-- JSON insignificant whitespace. -/
def isJsonWs (c : Char) : Bool :=
  c = ' ' || c = '\t' || c = '\n' || c = '\r'

/-- Hexadecimal digit value, by code point (48-57 are `0-9`, 97-102 are
`a-f`, 65-70 are `A-F`). -/
def hexVal (c : Char) : Option Nat :=
  let n := c.toNat
  if 48 ≤ n && n ≤ 57 then some (n - 48)
  else if 97 ≤ n && n ≤ 102 then some (n - 87)
  else if 65 ≤ n && n ≤ 70 then some (n - 55)
  else none

/-- The two-character escape sequences of JSON strings, paired with the
characters they denote. -/
def escPairs : List (Char × Char) :=
  [('"', '"'), ('\\', '\\'), ('/', '/'), ('b', '\x08'),
   ('f', '\x0c'), ('n', '\n'), ('r', '\r'), ('t', '\t')]

/-- Decode the body of a JSON string literal (after the opening quote) up to
the closing quote, handling the escape sequences `json.loads` accepts;
returns the decoded characters and the remainder after the closing quote. -/
def takeJsonString : List Char → List Char → Option (String × List Char)
  | _, [] => none
  | acc, '"' :: rest => some (String.mk acc.reverse, rest)
  | acc, '\\' :: e :: rest =>
    if e = 'u' then
      match rest with
      | h1 :: h2 :: h3 :: h4 :: rest4 =>
        match hexVal h1, hexVal h2, hexVal h3, hexVal h4 with
        | some v1, some v2, some v3, some v4 =>
          let n := v4 + 16 * (v3 + 16 * (v2 + 16 * v1))
          if h : n.isValidChar then
            takeJsonString (Char.ofNatAux n h :: acc) rest4
          else none
        | _, _, _, _ => none
      | _ => none
    else
      match escPairs.lookup e with
      | some decodedChar => takeJsonString (decodedChar :: acc) rest
      | none => none
  | _, '\\' :: [] => none
  | acc, c :: rest => takeJsonString (c :: acc) rest

/-- Lex a JSON number starting at the head of the input: optional minus,
integer part, optional fraction, optional exponent.  Returns the lexeme. -/
def takeJsonNumber (cs : List Char) : Option (String × List Char) :=
  let num0 := fun l => (l : List Char).takeWhile Char.isDigit
  let afterSign := match cs with
    | '-' :: rest => (['-'], rest)
    | rest => ([], rest)
  let sign := afterSign.1
  let body := afterSign.2
  let intPart := num0 body
  if intPart = [] then none
  else
    let rest1 := body.drop intPart.length
    let fracState : List Char × List Char :=
      match rest1 with
      | '.' :: r =>
        let fp := num0 r
        if fp = [] then ([], rest1) else ('.' :: fp, r.drop fp.length)
      | _ => ([], rest1)
    let frac := fracState.1
    let rest2 := fracState.2
    let expState : List Char × List Char :=
      match rest2 with
      | e :: r =>
        if e = 'e' || e = 'E' then
          let signedR : List Char × List Char :=
            match r with
            | s0 :: r2 => if s0 = '+' || s0 = '-' then ([s0], r2) else ([], r)
            | [] => ([], r)
          let ep := num0 signedR.2
          if ep = [] then ([], rest2)
          else (e :: (signedR.1 ++ ep), signedR.2.drop ep.length)
        else ([], rest2)
      | [] => ([], rest2)
    some (String.mk (sign ++ intPart ++ frac ++ expState.1), expState.2)

mutual

/-- Parse one JSON value; `fuel` bounds nesting depth.  The keyword
literals `null`, `true`, `false` are recognised by prefix; no other
production starts with those letters, so the order of the tests is
immaterial. -/
def parseValue : Nat → List Char → Option (Json × List Char)
  | 0, _ => none
  | fuel + 1, cs =>
    let cs1 := cs.dropWhile isJsonWs
    if charsPrefix "null".toList cs1 then some (Json.null, cs1.drop 4)
    else if charsPrefix "true".toList cs1 then some (Json.bool true, cs1.drop 4)
    else if charsPrefix "false".toList cs1 then
      some (Json.bool false, cs1.drop 5)
    else
      match cs1 with
      | '"' :: rest =>
        (takeJsonString [] rest).map (fun p => (Json.str p.1, p.2))
      | '[' :: rest =>
        (match (rest.dropWhile isJsonWs) with
         | ']' :: rest2 => some (Json.arr [], rest2)
         | _ =>
          (parseArrayItems fuel rest).map (fun p => (Json.arr p.1, p.2)))
      | '{' :: rest =>
        (match (rest.dropWhile isJsonWs) with
         | '}' :: rest2 => some (Json.obj [], rest2)
         | _ =>
          (parseObjectItems fuel rest).map (fun p => (Json.obj p.1, p.2)))
      | other =>
        (takeJsonNumber other).map (fun p => (Json.num p.1, p.2))

/-- Parse the comma-separated items of a nonempty JSON array, consuming the
closing bracket. -/
def parseArrayItems : Nat → List Char → Option (List Json × List Char)
  | 0, _ => none
  | fuel + 1, cs =>
    match parseValue fuel cs with
    | none => none
    | some (v, rest) =>
      match rest.dropWhile isJsonWs with
      | ',' :: rest2 =>
        (parseArrayItems fuel rest2).map (fun p => (v :: p.1, p.2))
      | ']' :: rest2 => some ([v], rest2)
      | _ => none

/-- Parse the comma-separated members of a nonempty JSON object, consuming
the closing brace. -/
def parseObjectItems : Nat → List Char → Option (List (String × Json) × List Char)
  | 0, _ => none
  | fuel + 1, cs =>
    match cs.dropWhile isJsonWs with
    | '"' :: rest =>
      match takeJsonString [] rest with
      | none => none
      | some (key, rest1) =>
        match rest1.dropWhile isJsonWs with
        | ':' :: rest2 =>
          match parseValue fuel rest2 with
          | none => none
          | some (v, rest3) =>
            match rest3.dropWhile isJsonWs with
            | ',' :: rest4 =>
              (parseObjectItems fuel rest4).map (fun p => ((key, v) :: p.1, p.2))
            | '}' :: rest4 => some ([(key, v)], rest4)
            | _ => none
        | _ => none
    | _ => none

end

/-- Python `json.loads`: parse one value and require only whitespace after
it; any other outcome raises `json.JSONDecodeError`, modelled as `none`. -/
def json_loads (s : String) : Option Json :=
  match parseValue (s.toList.length + 1) s.toList with
  | some (v, rest) => if rest.dropWhile isJsonWs = [] then some v else none
  | none => none

/-- Python truthiness of a decoded JSON value (`if result:`): `None`,
`False`, numeric zero, and empty strings/lists/dicts are falsy. -/
def jsonTruthy : Json → Bool
  | Json.null => false
  | Json.bool b => b
  | Json.num raw =>
    -- a JSON number is zero iff its mantissa has no nonzero digit
    (raw.toList.takeWhile (fun c => c ≠ 'e' && c ≠ 'E')).any
      (fun c => c.isDigit && c ≠ '0')
  | Json.str s => s ≠ ""
  | Json.arr xs => !xs.isEmpty
  | Json.obj kvs => !kvs.isEmpty

/-- Look a key up in a JSON object (`dict.get`); `none` for a missing key
or a non-object. -/
def getField (j : Json) (k : String) : Option Json :=
  match j with
  | Json.obj kvs => (kvs.find? (fun kv => kv.1 = k)).map (fun kv => kv.2)
  | _ => none

/-- The top-level keys of a persisted JSON document. -/
def topKeys : Json → List String
  | Json.obj kvs => kvs.map (fun kv => kv.1)
  | _ => []

/-! ## `engine/form_builder.py` -/

/-- `convert_json` (form_builder.py lines 206-210): delete every occurrence
of the fence markers — `string_json.replace("```json", '').replace('```', '')`
— and decode with `json.loads`; a decode error propagates, modelled as
`none`. -/
def convert_json (string_json : String) : Option Json :=
  json_loads (pyReplace "```" "" (pyReplace "```json" "" string_json))

/-- What `run_agent_form` returns: either the decoded form document, or
the aggregation output handed back unconverted by the `else` branch. -/
inductive RunResult where
  | form : Json → RunResult
  | raw : String → RunResult
deriving Repr

/-- `run_agent_form` (form_builder.py lines 213-228), abstracted over the
aggregation node's output string `final_form` (produced by the completion
service).  The code guards the conversion with
`if form_result.get('final_form') and isinstance(form_result['final_form'], str)`;
the aggregation node always yields a string, so over a string input the
guard is exactly nonemptiness (Python truthiness).  On the guarded branch
the code calls `convert_json`, and the `json.JSONDecodeError` of a failed
decode is not caught anywhere in `run_agent_form`, so it terminates the
run; on the `else` branch (the empty, falsy output) the string is returned
unconverted and nothing is raised. -/
def run_agent_form (final_form : String) : Except String RunResult :=
  if final_form ≠ "" then
    match convert_json final_form with
    | some form => Except.ok (RunResult.form form)
    | none => Except.error "JSONDecodeError"
  else
    Except.ok (RunResult.raw final_form)

/-- Modelled from the spec: the claimed parsing procedure for the
aggregation output — strip one leading code-fence marker (triple backtick
plus optional `json` tag) and one trailing triple backtick, leaving the
interior of the string untouched, then decode the remainder. -/
def stripFencesSpec (s : String) : String :=
  let cs := s.toList
  let cs1 :=
    if charsPrefix "```json".toList cs then cs.drop 7
    else if charsPrefix "```".toList cs then cs.drop 3
    else cs
  let cs2 :=
    if charsPrefix "```".toList cs1.reverse then (cs1.reverse.drop 3).reverse
    else cs1
  String.mk cs2

/-! ## `engine/form_chat.py` -/

/-- The closed intent classification of `InputAnalysis.intent`
(`Literal["edit", "suggest_questions", "unclear"]`). -/
inductive Intent where
  | edit : Intent
  | suggest_questions : Intent
  | unclear : Intent
deriving Repr, DecidableEq

/-- `InputAnalysis` (form_chat.py lines 54-63): the schema-constrained
result of the intent-classification completion call. -/
structure InputAnalysis where
  intent : Intent
  reason : String
deriving Repr, DecidableEq

/-- One chat message. -/
structure Message where
  role : String
  content : String
deriving Repr, DecidableEq

/-- `FormAssistantState` (form_chat.py lines 22-51), restricted to the
fields the node functions below read or write.  The `TypedDict` is
`total=False`; a missing key read through `.get` yields the recorded
default. -/
structure FormAssistantState where
  form : Json := Json.obj []
  form_id : String := ""
  user_input : String := ""
  messages : List Message := []
  analysis : Option InputAnalysis := none
  retrieved_templates : Option String := none
  suggested_edit_message : String := ""
  suggested_questions : List Json := []
  needs_confirmation : Bool := false
  confirmation_checked : Bool := false
  confirm_edit : Bool := false
  form_already_edited : Bool := false
deriving Repr

/-- The form store: the JSON files under `data/form_builder`, keyed by form
id.  `write_json` creates or overwrites one file. -/
def FormStore := List (String × Json)

/-- `write_json` (form_chat.py lines 486-488): overwrite the document held
under `fid`. -/
def storeWrite (store : FormStore) (fid : String) (doc : Json) : FormStore :=
  (fid, doc) :: (store : List (String × Json)).filter (fun kv => kv.1 ≠ fid)

/-- `input_analyzer` (form_chat.py lines 73-102), abstracted over the
combined outcome of the completion call and the Pydantic schema parse: the
`try` block stores the parsed analysis, and the `except` handler catches
every exception, logs it, and stores the fixed fallback analysis. -/
def input_analyzer (parsed : Except String InputAnalysis)
    (state : FormAssistantState) : FormAssistantState :=
  match parsed with
  | Except.ok a => { state with analysis := some a }
  | Except.error _ =>
    { state with analysis := some ⟨Intent.unclear, "Failed to parse intent"⟩ }

/-- `confirmation_handler` (form_chat.py lines 148-184), abstracted over
the completion reply: `intent = result.content.strip().lower()`, then
`confirm_edit = (intent == "yes")` and `confirmation_checked = True`. -/
def confirmation_handler (reply : String)
    (state : FormAssistantState) : FormAssistantState :=
  let intent := pyLower (pyStrip reply)
  { state with confirm_edit := intent = "yes", confirmation_checked := true }

/-- `form_editor` (form_chat.py lines 188-225), abstracted over the decode
outcome of the completion result (`json.loads(result.content)`).  Inside
the `try` block the code replaces `state["form"]`, persists it with
`write_json`, and sets `form_already_edited`; the `except` handler catches
the decode error, logs it, and changes nothing. -/
def form_editor (decoded : Except String Json)
    (state : FormAssistantState) (store : FormStore) :
    FormAssistantState × FormStore :=
  match decoded with
  | Except.ok newForm =>
    ({ state with form := newForm, form_already_edited := true },
     storeWrite store state.form_id newForm)
  | Except.error _ => (state, store)

/-- The node identifiers of the assistant graph (`build_form_assistant`,
form_chat.py lines 343-391). -/
inductive NodeId where
  | get_form_context : NodeId
  | input_analyzer_node : NodeId
  | edit_suggester : NodeId
  | question_suggester : NodeId
  | confirmation_handler_node : NodeId
  | form_editor_node : NodeId
  | llm_response : NodeId
deriving Repr, DecidableEq

/-- The conditional edge out of `confirmation_handler` (form_chat.py lines
379-386): `"apply" if state.get("confirm_edit") else "respond"`. -/
def route_after_confirmation_handler (state : FormAssistantState) : NodeId :=
  if state.confirm_edit then NodeId.form_editor_node else NodeId.llm_response

/-- The unconditional edge `form_editor -> llm_response` (form_chat.py
line 388). -/
def route_after_form_editor : NodeId := NodeId.llm_response

/-- The three response templates of `llm_response_generator`, each carrying
the state values that are formatted into it. -/
inductive ResponseCase where
  | edited (user_input : String) : ResponseCase
  | confirm (edit_message : String) : ResponseCase
  | conversation (user_input : String) (form_description : Json)
      (analysis : Option InputAnalysis) (suggestions : List Json)
      (templates : String) (edit_message : String) : ResponseCase
deriving Repr

/-- `state.get("form", {}).get("form_content", {}).get("description", "")`. -/
def formDescriptionOf (form : Json) : Json :=
  ((getField form "form_content").bind (fun fc => getField fc "description")).getD
    (Json.str "")

/-- `llm_response_generator` (form_chat.py lines 230-339), abstracted over
the completion output `response`: selects one of the three templates by the
priority written in the code, resets the consumed flags, and appends the
stripped reply to the message history. -/
def llm_response_generator (response : String)
    (state : FormAssistantState) : ResponseCase × FormAssistantState :=
  let user_input := state.user_input
  let form_description := formDescriptionOf state.form
  let analysis := state.analysis
  let suggestions := state.suggested_questions
  let templates := state.retrieved_templates.getD "None"
  let edit_message := state.suggested_edit_message
  let confirmation_needed := !state.confirmation_checked && state.needs_confirmation
  let form_edited := state.form_already_edited
  let appendMsg : FormAssistantState → FormAssistantState := fun st =>
    { st with messages := st.messages ++ [⟨"assistant", pyStrip response⟩] }
  if form_edited then
    (ResponseCase.edited user_input,
     appendMsg { state with form_already_edited := false })
  else if edit_message ≠ "" && confirmation_needed then
    (ResponseCase.confirm (pyStrip edit_message),
     appendMsg { state with confirmation_checked := false,
                            needs_confirmation := false })
  else
    (ResponseCase.conversation user_input form_description analysis
       suggestions templates edit_message,
     appendMsg state)

/-! ## `Form_Builder_Page.py` -/

/-- The wall-clock reading that `datetime.now()` returns, restricted to the
fields the formats below use.  A real `datetime` satisfies the range bounds
`1 ≤ day ≤ 31`, `1 ≤ month ≤ 12`, `year ≤ 9999`, `hour ≤ 23`,
`minute ≤ 59`. -/
structure Clock where
  day : Nat
  month : Nat
  year : Nat
  hour : Nat
  minute : Nat
deriving Repr

/-- A zero-padded two-digit decimal field (`%d`, `%m`, `%H`, `%M`), as its
characters. -/
def pad2 (n : Nat) : List Char :=
  [Nat.digitChar (n / 10 % 10), Nat.digitChar (n % 10)]

/-- A zero-padded four-digit year (`%Y` for years below 10000), as its
characters. -/
def pad4 (n : Nat) : List Char :=
  [Nat.digitChar (n / 1000 % 10), Nat.digitChar (n / 100 % 10),
   Nat.digitChar (n / 10 % 10), Nat.digitChar (n % 10)]

/-- `datetime.now().strftime('%d%m%Y')`. -/
def strftimeDDMMYYYY (c : Clock) : List Char :=
  pad2 c.day ++ pad2 c.month ++ pad4 c.year

/-- `datetime.now().strftime('%d_%m_%Y: %H:%M')`. -/
def strftimeCreatedAt (c : Clock) : List Char :=
  pad2 c.day ++ '_' :: pad2 c.month ++ '_' :: pad4 c.year ++
    ':' :: ' ' :: pad2 c.hour ++ ':' :: pad2 c.minute

/-- `save_form_response` (Form_Builder_Page.py lines 527-552), abstracted
over the clock and over the random suffix `uuid.uuid4().hex[:8]`.  Returns
the generated identifier together with the JSON document the function
writes to `data/form_builder/<form_id>.json` (and keeps in the session
state). -/
def save_form_response (now : Clock) (hex8 : String) (form_response : Json) :
    String × Json :=
  let form_id := String.mk ('f' :: 'o' :: 'r' :: 'm' :: '_' ::
    strftimeDDMMYYYY now ++ '_' :: hex8.toList)
  let created_at := String.mk (strftimeCreatedAt now)
  let save_data := Json.obj
    [("form_id", Json.str form_id),
     ("timestamp", Json.obj [("created_at", Json.str created_at)]),
     ("form_content", form_response)]
  (form_id, save_data)

/-- `handle_generate_form` (Form_Builder_Page.py lines 68-85), abstracted
over the aggregation output that drives `run_agent_form` and over the
clock/randomness of `save_form_response`: an exception from
`run_agent_form` is caught and shown, and the function returns without
saving anything; on success, a truthy result is persisted through
`save_form_response`. -/
def handle_generate_form (now : Clock) (hex8 : String)
    (final_form : String) : Option (String × Json) :=
  match run_agent_form final_form with
  | Except.error _ => none
  | Except.ok (RunResult.form result) =>
    if jsonTruthy result then some (save_form_response now hex8 result)
    else none
  | Except.ok (RunResult.raw s) =>
    -- `if result:` on the unconverted string; that branch only arises for
    -- the empty (falsy) aggregation output, so nothing is saved
    if s ≠ "" then some (save_form_response now hex8 (Json.str s)) else none

/-- The delimiter class of `re.split(r'[\n,;/\\]+', ...)`. -/
def isListDelim (c : Char) : Bool :=
  c = '\n' || c = ',' || c = ';' || c = '/' || c = '\\'

/-- `parse_list_type_example` (Form_Builder_Page.py lines 122-132): convert
each escaped-newline digraph to a real newline, split on runs of the
delimiter class, strip each piece and keep the nonempty ones. -/
def parse_list_type_example (example_text : String) : List String :=
  let normalized := pyReplace "\\n" "\n" example_text
  ((splitRuns isListDelim normalized).map pyStrip).filter (fun s => s ≠ "")

/-- Modelled from the spec: the claimed parsing procedure — split the input
itself on any run of newline, comma, semicolon, slash or backslash
characters, trim whitespace from each piece and drop empty pieces, with no
normalization step. -/
def parse_list_spec (example_text : String) : List String :=
  ((splitRuns isListDelim example_text).map pyStrip).filter (fun s => s ≠ "")

/-- `os.path.normpath` component normalization for relative POSIX paths:
drop empty and `.` components and cancel a `..` against a preceding real
component, keeping leading `..`s. -/
def normComponents (comps : List String) : List String :=
  comps.foldl
    (fun acc comp =>
      if comp = "" || comp = "." then acc
      else if comp = ".." then
        match acc.getLast? with
        | some last => if last = ".." then acc ++ [".."] else acc.dropLast
        | none => acc ++ [".."]
      else acc ++ [comp])
    []

/-- Join path components with `/` (`os.path.join` of relative pieces). -/
def joinComps : List String → String
  | [] => ""
  | [x] => x
  | x :: xs => x ++ "/" ++ joinComps xs

/-- `os.path.normpath` on a relative POSIX path (the case the claim about
`write_json_form` quantifies over). -/
def posixNormpath (p : String) : String :=
  let comps := normComponents (splitChars (fun c => c = '/') p)
  if comps.isEmpty then "." else joinComps comps

/-- The path computation of `write_json_form` (Form_Builder_Page.py lines
217-245): normalize the argument, and prepend the
`os.path.join('data', 'form_builder')` root unless the first two
`split(os.sep)` components already are `data` and `form_builder`. -/
def write_json_form_path (path : String) : String :=
  let normalized_path := posixNormpath path
  if ¬ ((splitChars (fun c => c = '/') normalized_path).take 2 =
        ["data", "form_builder"]) then
    "data/form_builder" ++ "/" ++ normalized_path
  else
    normalized_path

/-- A path string lies (syntactically) under `data/form_builder` when its
first two components are `data` and `form_builder`. -/
def underDataFormBuilder (q : String) : Bool :=
  (splitChars (fun c => c = '/') q).take 2 = ["data", "form_builder"]

/-- One row of the answers CSV. -/
structure AnswerRow where
  submit_id : String
  form_name : String
  step_name : String
  question : String
  answer : String
deriving Repr, DecidableEq

/-- The deduplication key of `drop_duplicates(subset=[...])`. -/
def rowKey (r : AnswerRow) : String × String × String × String :=
  (r.submit_id, r.form_name, r.step_name, r.question)

/-- `DataFrame.drop_duplicates(subset=key_columns, keep="last")`: a row is
kept exactly when no later row has the same key. -/
def drop_duplicates_keep_last : List AnswerRow → List AnswerRow
  | [] => []
  | r :: rest =>
    if rest.any (fun x => rowKey x = rowKey r) then
      drop_duplicates_keep_last rest
    else
      r :: drop_duplicates_keep_last rest

/-- `save_answers_to_csv` (Form_Builder_Page.py lines 472-492): concatenate
the existing rows with the new batch (`pd.concat`) and deduplicate on the
key, keeping the last occurrence; the result is written back to the CSV. -/
def save_answers_to_csv (df_existing new_answers : List AnswerRow) :
    List AnswerRow :=
  drop_duplicates_keep_last (df_existing ++ new_answers)

/-- The last row of `rows` whose key is `k`, if any. -/
def lastWithKey (rows : List AnswerRow) (k : String × String × String × String) :
    Option AnswerRow :=
  match rows with
  | [] => none
  | r :: rest =>
    match lastWithKey rest k with
    | some x => some x
    | none => if rowKey r = k then some r else none

/-! ## `helpers/streamlit_component.py` -/

/-- The delimiter class of `re.split(r"[,\s\-]+", ...)`. -/
def isSliderDelim (c : Char) : Bool :=
  c = ',' || isPyWs c || c = '-'

/-- The `(min_val, max_val)` extraction of `render_slider_rating`
(streamlit_component.py lines 62-76): an empty example gives the default
`(1, 5)`; otherwise the stripped example is split on runs of the delimiter
class, `int(parts[0])` is the minimum, `int(parts[1])` the maximum when a
second part exists (`min_val + 9` otherwise), and any exception from the
conversions falls back to `(1, 5)`. -/
def render_slider_rating_bounds (question_example : String) : Int × Int :=
  if question_example ≠ "" then
    match splitRuns isSliderDelim (pyStrip question_example) with
    | [] => (1, 5)
    | [p0] =>
      match pyInt p0 with
      | some mn => (mn, mn + 9)
      | none => (1, 5)
    | p0 :: p1 :: _ =>
      match pyInt p0, pyInt p1 with
      | some mn, some mx => (mn, mx)
      | _, _ => (1, 5)
  else (1, 5)

/-! ## Shape checkers for the identifier and timestamp claims -/

/-- A lowercase hexadecimal digit, the alphabet of `uuid.uuid4().hex`. -/
def isLowerHexDigit (c : Char) : Bool :=
  c.isDigit || ('a' ≤ c && c ≤ 'f')

/-- Decide whether a string has the exact shape
`form_<8 decimal digits>_<8 lowercase hex digits>`. -/
def isFormIdShape (s : String) : Bool :=
  match s.toList with
  | c1 :: c2 :: c3 :: c4 :: c5 :: rest =>
    c1 = 'f' && c2 = 'o' && c3 = 'r' && c4 = 'm' && c5 = '_' &&
    (rest.take 8).length = 8 && (rest.take 8).all Char.isDigit &&
    (match rest.drop 8 with
     | u :: hx => u = '_' && hx.length = 8 && hx.all isLowerHexDigit
     | [] => false)
  | _ => false

/-- Decide whether a string has the exact shape `DD_MM_YYYY: HH:MM`. -/
def isCreatedAtShape (s : String) : Bool :=
  match s.toList with
  | [d1, d2, u1, m1, m2, u2, y1, y2, y3, y4, c1, sp, h1, h2, c2, n1, n2] =>
    d1.isDigit && d2.isDigit && u1 = '_' && m1.isDigit && m2.isDigit &&
    u2 = '_' && y1.isDigit && y2.isDigit && y3.isDigit && y4.isDigit &&
    c1 = ':' && sp = ' ' && h1.isDigit && h2.isDigit && c2 = ':' &&
    n1.isDigit && n2.isDigit
  | _ => false

/-! ## Theorems for the claims -/

/-- C5: for every outcome of the completion call plus schema parse in
`input_analyzer`, an exception is absorbed into the fixed fallback analysis
`{intent: unclear, reason: "Failed to parse intent"}` and never propagated
(the function is total); on success the stored intent is one of `edit`,
`suggest_questions`, `unclear` — the closed classification the schema
enforces. -/
theorem input_analyzer_safe_fallback
    (parsed : Except String InputAnalysis) (state : FormAssistantState) :
    (∀ e, parsed = Except.error e →
      (input_analyzer parsed state).analysis =
        some ⟨Intent.unclear, "Failed to parse intent"⟩) ∧
    (∀ a, parsed = Except.ok a →
      (input_analyzer parsed state).analysis = some a ∧
        (a.intent = Intent.edit ∨ a.intent = Intent.suggest_questions ∨
          a.intent = Intent.unclear)) := by
  constructor
  · intro e he; subst he; rfl
  · intro a ha; subst ha
    refine ⟨rfl, ?_⟩
    rcases a with ⟨i, r⟩
    cases i <;> simp

/-- Witness for C5: a concrete failed parse yields the fixed fallback. -/
theorem input_analyzer_safe_fallback_witness :
    (input_analyzer (Except.error "boom") {}).analysis =
      some ⟨Intent.unclear, "Failed to parse intent"⟩ :=
  (input_analyzer_safe_fallback (Except.error "boom") {}).1 "boom" rfl

/-- C3: `confirmation_handler` sets `confirm_edit` to true exactly when the
stripped, lowercased completion reply equals `"yes"`, always sets
`confirmation_checked`, and the conditional edge out of the node goes to
`form_editor` exactly when `confirm_edit` is true and to `llm_response`
otherwise (so for `"no"`, `"unknown"`, or any other reply). -/
theorem confirmation_handler_spec (reply : String)
    (state : FormAssistantState) :
    ((confirmation_handler reply state).confirm_edit = true ↔
      pyLower (pyStrip reply) = "yes") ∧
    (confirmation_handler reply state).confirmation_checked = true ∧
    (route_after_confirmation_handler (confirmation_handler reply state) =
        NodeId.form_editor_node ↔ pyLower (pyStrip reply) = "yes") ∧
    (route_after_confirmation_handler (confirmation_handler reply state) =
        NodeId.llm_response ↔ ¬ pyLower (pyStrip reply) = "yes") := by
  by_cases h : pyLower (pyStrip reply) = "yes" <;>
    simp [confirmation_handler, route_after_confirmation_handler, h]

/-- Witness for C3: a concrete confirming reply routes to the editor. -/
theorem confirmation_handler_spec_witness :
    route_after_confirmation_handler (confirmation_handler "  YES " {}) =
      NodeId.form_editor_node :=
  (confirmation_handler_spec "  YES " {}).2.2.1.mpr rfl

/-- C2: in `form_editor`, a failed decode of the completion result leaves
both the in-memory form and the persisted store untouched; a successful
decode replaces the form, overwrites the persisted document under the form
id, and sets `form_already_edited`; in both cases the graph proceeds
unconditionally to `llm_response`, which appends one reply to the message
history. -/
theorem form_editor_spec (decoded : Except String Json)
    (state : FormAssistantState) (store : FormStore) (response : String) :
    (∀ e, decoded = Except.error e →
      form_editor decoded state store = (state, store)) ∧
    (∀ f, decoded = Except.ok f →
      form_editor decoded state store =
        ({ state with form := f, form_already_edited := true },
         storeWrite store state.form_id f)) ∧
    route_after_form_editor = NodeId.llm_response ∧
    ((llm_response_generator response
        (form_editor decoded state store).1).2).messages.length =
      state.messages.length + 1 := by
  refine ⟨?_, ?_, rfl, ?_⟩
  · intro e he; subst he; rfl
  · intro f hf; subst hf; rfl
  · cases decoded <;>
      · simp only [form_editor, llm_response_generator]
        split <;> try split
        all_goals simp

/-- Witness for C2: a concrete failed decode changes nothing. -/
theorem form_editor_spec_witness :
    form_editor (Except.error "bad") {} ([] : FormStore) =
      ({}, ([] : FormStore)) :=
  (form_editor_spec (Except.error "bad") {} ([] : FormStore) "ok").1 "bad" rfl

/-- C1 counterexample: `convert_json` does not strip only leading/trailing
fence markers — it deletes every occurrence of the markers anywhere in the
string.  On the aggregation output `"12```34"` the claimed procedure leaves
the string unchanged and its decode fails (so the claim predicts a fatal
`GenerationFailure`), while the code deletes the interior marker and
happily returns the decoded number `1234`. -/
theorem convert_json_strips_everywhere_counterexample :
    stripFencesSpec "12```34" = "12```34" ∧
    json_loads (stripFencesSpec "12```34") = none ∧
    convert_json "12```34" = some (Json.num "1234") ∧
    run_agent_form "12```34" = Except.ok (RunResult.form (Json.num "1234")) :=
  ⟨rfl, rfl, rfl, rfl⟩

/-- C1 (amended): on every nonempty (truthy) aggregation output,
`run_agent_form` obtains the final form by deleting every occurrence of
the code-fence markers throughout the string and decoding the remainder as
JSON; when that decode fails, the run terminates with the uncaught decode
error — no retry — and the caller persists no form document.  The empty
(falsy) aggregation output skips the conversion: it is returned
unconverted without error, and nothing is persisted either. -/
theorem run_agent_form_spec (s : String) :
    (s ≠ "" →
      json_loads (pyReplace "```" "" (pyReplace "```json" "" s)) = none →
      run_agent_form s = Except.error "JSONDecodeError" ∧
      ∀ now hex8, handle_generate_form now hex8 s = none) ∧
    (∀ f, s ≠ "" →
      json_loads (pyReplace "```" "" (pyReplace "```json" "" s)) = some f →
      run_agent_form s = Except.ok (RunResult.form f)) ∧
    (run_agent_form "" = Except.ok (RunResult.raw "") ∧
      ∀ now hex8, handle_generate_form now hex8 "" = none) := by
  refine ⟨?_, ?_, ?_, ?_⟩
  · intro hs h
    refine ⟨?_, ?_⟩
    · simp [run_agent_form, convert_json, hs, h]
    · intro now hex8
      simp [handle_generate_form, run_agent_form, convert_json, hs, h]
  · intro f hs h
    simp [run_agent_form, convert_json, hs, h]
  · rfl
  · intro now hex8
    rfl

/-- Witness for C1 (amended): a concrete nonempty undecodable aggregation
output is fatal and nothing is persisted. -/
theorem run_agent_form_spec_witness :
    run_agent_form "oops" = Except.error "JSONDecodeError" ∧
    ∀ now hex8, handle_generate_form now hex8 "oops" = none :=
  (run_agent_form_spec "oops").1 (by decide) rfl

/-- C7: the slider-bounds extraction of `render_slider_rating` maps
`"1-5"` to `(1, 5)`, `"3"` to `(3, 12)` — and in general a single numeric
part `n` to `(n, n + 9)` — while a malformed example such as `"abc"` and an
empty example both fall back to `(1, 5)` without raising. -/
theorem render_slider_rating_bounds_spec :
    render_slider_rating_bounds "1-5" = (1, 5) ∧
    render_slider_rating_bounds "3" = (3, 12) ∧
    render_slider_rating_bounds "abc" = (1, 5) ∧
    render_slider_rating_bounds "" = (1, 5) ∧
    (∀ s t n, s ≠ "" → splitRuns isSliderDelim (pyStrip s) = [t] →
      pyInt t = some n → render_slider_rating_bounds s = (n, n + 9)) := by
  refine ⟨rfl, rfl, rfl, rfl, ?_⟩
  intro s t n hs hsplit hint
  simp [render_slider_rating_bounds, hs, hsplit, hint]

/-- Witness for C7: a concrete one-number example defaults the maximum to
the minimum plus nine. -/
theorem render_slider_rating_bounds_spec_witness :
    render_slider_rating_bounds "7" = (7, 16) :=
  render_slider_rating_bounds_spec.2.2.2.2 "7" "7" 7 (by decide) rfl rfl

/-- C4: `llm_response_generator` selects its template by strict priority —
(a) a set `form_already_edited` flag picks the change-applied-summarize
template and resets the flag; otherwise (b) a nonempty suggested edit
message with `needs_confirmation` set and `confirmation_checked` unset
picks the please-confirm template and resets both confirmation flags to
false; otherwise (c) the general conversational template carrying the
analysis, the suggested questions, the retrieved templates, and the prior
edit message is used; and in every case the produced reply is appended to
the message history. -/
theorem llm_response_generator_spec (response : String)
    (state : FormAssistantState) :
    (state.form_already_edited = true →
      (llm_response_generator response state).1 =
        ResponseCase.edited state.user_input ∧
      (llm_response_generator response state).2.form_already_edited = false) ∧
    (state.form_already_edited = false →
      state.suggested_edit_message ≠ "" →
      state.needs_confirmation = true →
      state.confirmation_checked = false →
      (llm_response_generator response state).1 =
        ResponseCase.confirm (pyStrip state.suggested_edit_message) ∧
      (llm_response_generator response state).2.needs_confirmation = false ∧
      (llm_response_generator response state).2.confirmation_checked = false) ∧
    (state.form_already_edited = false →
      ¬ (state.suggested_edit_message ≠ "" ∧ state.needs_confirmation = true ∧
          state.confirmation_checked = false) →
      (llm_response_generator response state).1 =
        ResponseCase.conversation state.user_input
          (formDescriptionOf state.form) state.analysis
          state.suggested_questions (state.retrieved_templates.getD "None")
          state.suggested_edit_message) ∧
    (llm_response_generator response state).2.messages =
      state.messages ++ [⟨"assistant", pyStrip response⟩] := by
  refine ⟨?_, ?_, ?_, ?_⟩
  · intro h
    simp [llm_response_generator, h]
  · intro h1 h2 h3 h4
    simp [llm_response_generator, h1, h2, h3, h4]
  · intro h1 h2
    by_cases hem : state.suggested_edit_message = ""
    · simp [llm_response_generator, h1, hem]
    · cases hne : state.needs_confirmation with
      | false => simp [llm_response_generator, h1, hne]
      | true =>
        cases hcc : state.confirmation_checked with
        | false => exact absurd ⟨hem, hne, hcc⟩ h2
        | true => simp [llm_response_generator, h1, hcc]
  · simp only [llm_response_generator]
    split
    · simp
    · split <;> simp

/-- Witness for C4: with a concrete edited-flag state the change-applied
template is chosen and the flag is reset. -/
theorem llm_response_generator_spec_witness :
    (llm_response_generator "ok"
        { form_already_edited := true, user_input := "hi" }).1 =
      ResponseCase.edited "hi" ∧
    (llm_response_generator "ok"
        { form_already_edited := true, user_input := "hi" }).2.form_already_edited
      = false :=
  (llm_response_generator_spec "ok"
    { form_already_edited := true, user_input := "hi" }).1 rfl

/-- `lastWithKey` yields `none` exactly when no row carries the key. -/
theorem lastWithKey_eq_none_iff (rows : List AnswerRow)
    (k : String × String × String × String) :
    lastWithKey rows k = none ↔ ∀ x ∈ rows, rowKey x ≠ k := by
  induction rows with
  | nil => simp [lastWithKey]
  | cons r rest ih =>
    simp only [lastWithKey]
    cases h : lastWithKey rest k with
    | some x =>
      rw [h] at ih
      simp only [List.mem_cons]
      constructor
      · intro hfalse; cases hfalse
      · intro hall
        exfalso
        have hne := (not_iff_not.mpr ih).mp (by simp)
        push_neg at hne
        rcases hne with ⟨y, hy, hkey⟩
        exact (hall y (Or.inr hy)) hkey
    | none =>
      rw [h] at ih
      by_cases hr : rowKey r = k
      · simp [hr, ih.mp rfl]
      · simp only [if_neg hr, List.mem_cons]
        constructor
        · intro _ x hx
          rcases hx with hx | hx
          · subst hx; exact hr
          · exact ih.mp rfl x hx
        · intro _; trivial

/-- After `drop_duplicates(..., keep="last")`, the rows carrying a given
key are exactly the last row of the input with that key. -/
theorem dedup_filter_eq (l : List AnswerRow)
    (k : String × String × String × String) :
    (drop_duplicates_keep_last l).filter (fun r => rowKey r = k) =
      (lastWithKey l k).toList := by
  induction l with
  | nil => rfl
  | cons r rest ih =>
    simp only [drop_duplicates_keep_last, lastWithKey]
    by_cases hdup : ∃ x ∈ rest, rowKey x = rowKey r
    · rw [if_pos (by simpa using hdup)]
      cases h : lastWithKey rest k with
      | some x => rw [ih, h]
      | none =>
        have hall := (lastWithKey_eq_none_iff rest k).mp h
        have hrk : rowKey r ≠ k := by
          intro hk
          rcases hdup with ⟨x, hx, hkey⟩
          exact hall x hx (hkey.trans hk)
        rw [ih, h, if_neg hrk]
    · rw [if_neg (by simpa using hdup)]
      by_cases hrk : rowKey r = k
      · have hall : ∀ x ∈ rest, rowKey x ≠ k := by
          intro x hx hk
          exact hdup ⟨x, hx, hk.trans hrk.symm⟩
        have hnone : lastWithKey rest k = none :=
          (lastWithKey_eq_none_iff rest k).mpr hall
        rw [List.filter_cons_of_pos (by simpa using hrk), ih, hnone,
          if_pos hrk]
        rfl
      · rw [List.filter_cons_of_neg (by simpa using hrk), ih]
        cases h : lastWithKey rest k with
        | some x => rfl
        | none => rw [if_neg hrk]

/-- Deduplication only keeps rows of the input. -/
theorem dedup_subset (l : List AnswerRow) :
    ∀ r ∈ drop_duplicates_keep_last l, r ∈ l := by
  induction l with
  | nil => intro r hr; cases hr
  | cons x rest ih =>
    intro r hr
    simp only [drop_duplicates_keep_last] at hr
    split at hr
    · exact List.mem_cons_of_mem x (ih r hr)
    · rcases List.mem_cons.mp hr with h | h
      · exact h ▸ List.mem_cons_self x rest
      · exact List.mem_cons_of_mem x (ih r h)

/-- C9: `save_answers_to_csv` concatenates the existing rows with the new
batch and deduplicates on `(submit_id, form_name, step_name, question)`
keeping the last occurrence: for every key, the merged table holds exactly
the last row of old-then-new carrying that key (so a resubmitted answer
replaces the earlier one, and a key submitted once survives untouched), and
every kept row comes from the concatenation. -/
theorem save_answers_to_csv_spec (df_existing new_answers : List AnswerRow)
    (k : String × String × String × String) :
    (save_answers_to_csv df_existing new_answers).filter
        (fun r => rowKey r = k) =
      (lastWithKey (df_existing ++ new_answers) k).toList ∧
    ∀ r ∈ save_answers_to_csv df_existing new_answers,
      r ∈ df_existing ++ new_answers :=
  ⟨dedup_filter_eq (df_existing ++ new_answers) k,
   dedup_subset (df_existing ++ new_answers)⟩

/-- Witness for C9: with a concrete resubmission for one key, only the
later answer survives, and it comes from the concatenated input. -/
theorem save_answers_to_csv_spec_witness :
    (save_answers_to_csv [⟨"s1", "f", "st", "q", "a1"⟩]
        [⟨"s1", "f", "st", "q", "a2"⟩]).filter
        (fun r => rowKey r = ("s1", "f", "st", "q")) =
      [⟨"s1", "f", "st", "q", "a2"⟩] ∧
    (⟨"s1", "f", "st", "q", "a2"⟩ : AnswerRow) ∈
      ([⟨"s1", "f", "st", "q", "a1"⟩] ++ [⟨"s1", "f", "st", "q", "a2"⟩] :
        List AnswerRow) :=
  ⟨((save_answers_to_csv_spec [⟨"s1", "f", "st", "q", "a1"⟩]
      [⟨"s1", "f", "st", "q", "a2"⟩] ("s1", "f", "st", "q")).1).trans rfl,
   (save_answers_to_csv_spec [⟨"s1", "f", "st", "q", "a1"⟩]
      [⟨"s1", "f", "st", "q", "a2"⟩] ("s1", "f", "st", "q")).2
     ⟨"s1", "f", "st", "q", "a2"⟩ (by decide)⟩

/-- Membership survives `dropWhile`. -/
theorem mem_of_mem_dropWhile {α : Type} (p : α → Bool) (l : List α) (x : α)
    (hx : x ∈ l.dropWhile p) : x ∈ l := by
  induction l with
  | nil => cases hx
  | cons a l ih =>
    rw [List.dropWhile] at hx
    by_cases ha : p a = true
    · rw [ha] at hx
      exact List.mem_cons_of_mem a (ih hx)
    · rw [Bool.not_eq_true] at ha
      rw [ha] at hx
      exact hx

/-- A replacement pass leaves a string untouched when the pattern's first
character never occurs. -/
theorem replaceChars_no_occur (p : Char) (ps repl : List Char) :
    ∀ fuel cs, (∀ c ∈ cs, c ≠ p) →
      replaceChars (p :: ps) repl fuel cs = cs := by
  intro fuel
  induction fuel with
  | zero => intro cs _; cases cs <;> rfl
  | succ fuel ih =>
    intro cs hcs
    cases cs with
    | nil => rfl
    | cons c cs =>
      have hcp : charsPrefix (p :: ps) (c :: cs) = false := by
        have : ¬ p = c := fun h => (hcs c (List.mem_cons_self c cs)) h.symm
        simp [charsPrefix, this]
      simp only [replaceChars, hcp, if_false, Bool.false_eq_true]
      rw [ih cs (fun x hx => hcs x (List.mem_cons_of_mem c hx))]

/-- Every character of every piece of a run-split comes from the
accumulator or the input. -/
theorem splitRunsAux_all (P : Char → Bool) (d : Char → Bool) :
    ∀ fuel acc cs, (∀ c ∈ acc, P c = true) → (∀ c ∈ cs, P c = true) →
      ∀ piece ∈ splitRunsAux d fuel acc cs, ∀ c ∈ piece.toList, P c = true := by
  intro fuel
  induction fuel with
  | zero =>
    intro acc cs hacc hcs piece hpiece c hc
    cases cs with
    | nil =>
      simp only [splitRunsAux, List.mem_singleton] at hpiece
      subst hpiece
      rcases List.mem_reverse.mp hc with h
      exact hacc c h
    | cons x cs =>
      simp only [splitRunsAux, List.mem_singleton] at hpiece
      subst hpiece
      rcases List.mem_append.mp hc with h | h
      · exact hacc c (List.mem_reverse.mp h)
      · exact hcs c h
  | succ fuel ih =>
    intro acc cs hacc hcs piece hpiece c hc
    cases cs with
    | nil =>
      simp only [splitRunsAux, List.mem_singleton] at hpiece
      subst hpiece
      exact hacc c (List.mem_reverse.mp hc)
    | cons x cs =>
      simp only [splitRunsAux] at hpiece
      by_cases hd : d x = true
      · rw [if_pos hd] at hpiece
        rcases List.mem_cons.mp hpiece with h | h
        · subst h
          exact hacc c (List.mem_reverse.mp hc)
        · exact ih [] (cs.dropWhile d) (by intro y hy; cases hy)
            (fun y hy => hcs y
              (List.mem_cons_of_mem x (mem_of_mem_dropWhile d cs y hy)))
            piece h c hc
      · rw [if_neg hd] at hpiece
        exact ih (x :: acc) cs
          (by
            intro y hy
            rcases List.mem_cons.mp hy with h | h
            · exact h ▸ hcs x (List.mem_cons_self x cs)
            · exact hacc y h)
          (fun y hy => hcs y (List.mem_cons_of_mem x hy))
          piece hpiece c hc

/-- Dropping leading elements that all satisfy the predicate empties the
list. -/
theorem dropWhile_all_eq_nil {α : Type} (p : α → Bool) (l : List α)
    (h : ∀ x ∈ l, p x = true) : l.dropWhile p = [] := by
  induction l with
  | nil => rfl
  | cons a l ih =>
    rw [List.dropWhile, h a (List.mem_cons_self a l)]
    exact ih (fun x hx => h x (List.mem_cons_of_mem a hx))

/-- A whitespace-only string strips to the empty string. -/
theorem pyStrip_all_ws (s : String) (h : ∀ c ∈ s.toList, isPyWs c = true) :
    pyStrip s = "" := by
  unfold pyStrip
  rw [dropWhile_all_eq_nil isPyWs s.toList h]
  rfl

/-- C6 counterexample: the claimed splitting procedure and the code differ
on an input holding the two-character sequence backslash-`n`: the code
first converts it to a real newline (eating the letter `n`), while the
claimed split on delimiter runs keeps the `n` as content. -/
theorem parse_list_backslash_n_counterexample :
    parse_list_type_example "x\\ny" = ["x", "y"] ∧
    parse_list_spec "x\\ny" = ["x", "ny"] ∧
    parse_list_type_example "x\\ny" ≠ parse_list_spec "x\\ny" :=
  ⟨rfl, rfl, by decide⟩

/-- C6 (amended): `parse_list_type_example` first converts every literal
backslash-`n` digraph to a newline and then splits on any run of newline,
comma, semicolon, slash, or backslash characters, trims each piece, and
drops empty pieces; in particular `"A, B; C/D\nE"` (with a real newline or
with the escaped digraph) yields `["A","B","C","D","E"]`, and any
whitespace-only string yields `[]`. -/
theorem parse_list_type_example_spec :
    (∀ s, parse_list_type_example s =
      parse_list_spec (pyReplace "\\n" "\n" s)) ∧
    parse_list_type_example "A, B; C/D\nE" = ["A", "B", "C", "D", "E"] ∧
    parse_list_type_example "A, B; C/D\\nE" = ["A", "B", "C", "D", "E"] ∧
    (∀ s, s.toList.all isPyWs = true → parse_list_type_example s = []) := by
  refine ⟨fun s => rfl, rfl, rfl, ?_⟩
  intro s hws
  rw [List.all_eq_true] at hws
  have hnb : ∀ c ∈ s.toList, c ≠ '\\' := by
    intro c hc he
    have := hws c hc
    rw [he] at this
    cases this
  have hrepl : pyReplace "\\n" "\n" s = s := by
    show String.mk (replaceChars ('\\' :: ['n']) ['\n']
      s.toList.length s.toList) = s
    rw [replaceChars_no_occur '\\' ['n'] ['\n'] s.toList.length s.toList hnb]
    cases s
    rfl
  unfold parse_list_type_example
  rw [hrepl]
  have hpieces := splitRunsAux_all isPyWs isListDelim s.toList.length []
    s.toList (by intro c hc; cases hc) hws
  rw [List.filter_eq_nil_iff]
  intro piece hpiece
  rcases List.mem_map.mp hpiece with ⟨q, hq, hstrip⟩
  have : pyStrip q = "" :=
    pyStrip_all_ws q (hpieces q hq)
  rw [← hstrip, this]
  simp

/-- Witness for C6 (amended): a concrete whitespace-only input yields the
empty option list. -/
theorem parse_list_type_example_spec_witness :
    parse_list_type_example " \t\n " = [] :=
  parse_list_type_example_spec.2.2.2 " \t\n " (by decide)

/-- The last decimal digit of any number prints as a digit character. -/
theorem digitChar_mod10_isDigit (n : Nat) :
    (Nat.digitChar (n % 10)).isDigit = true := by
  have hall : ∀ m, m < 10 → (Nat.digitChar m).isDigit = true := by decide
  exact hall (n % 10) (Nat.mod_lt n (by norm_num))

/-- C8 counterexample: the document persisted by `save_form_response` does
not carry a top-level `created_at` field — the creation timestamp is
nested inside a top-level `timestamp` object, so the top-level fields are
`{form_id, timestamp, form_content}`. -/
theorem save_form_response_top_keys_counterexample :
    topKeys (save_form_response ⟨12, 10, 2026, 9, 30⟩ "abcd1234"
        (Json.obj [])).2 = ["form_id", "timestamp", "form_content"] ∧
    "created_at" ∉
      topKeys (save_form_response ⟨12, 10, 2026, 9, 30⟩ "abcd1234"
        (Json.obj [])).2 ∧
    getField (save_form_response ⟨12, 10, 2026, 9, 30⟩ "abcd1234"
        (Json.obj [])).2 "created_at" = none :=
  ⟨rfl, by decide, rfl⟩

/-- C8 (amended): `save_form_response` wraps the generated content with an
identifier of the exact shape `form_<DDMMYYYY>_<8 hex chars>` (random
hexadecimal suffix) and a creation timestamp of format `DD_MM_YYYY: HH:MM`,
and the persisted document has the top-level fields
`{form_id, timestamp, form_content}` with `created_at` nested inside
`timestamp`. -/
theorem save_form_response_spec (now : Clock) (hex8 : String) (content : Json)
    (_hday : now.day ≤ 31) (_hmon : now.month ≤ 12)
    (_hyear : now.year ≤ 9999) (_hhour : now.hour ≤ 23)
    (_hmin : now.minute ≤ 59)
    (hlen : hex8.toList.length = 8)
    (hhex : hex8.toList.all isLowerHexDigit = true) :
    isFormIdShape (save_form_response now hex8 content).1 = true ∧
    topKeys (save_form_response now hex8 content).2 =
      ["form_id", "timestamp", "form_content"] ∧
    getField (save_form_response now hex8 content).2 "timestamp" =
      some (Json.obj
        [("created_at", Json.str (String.mk (strftimeCreatedAt now)))]) ∧
    isCreatedAtShape (String.mk (strftimeCreatedAt now)) = true := by
  refine ⟨?_, rfl, rfl, ?_⟩
  · simp [isFormIdShape, save_form_response, strftimeDDMMYYYY, pad2, pad4,
      String.toList, digitChar_mod10_isDigit]
    exact ⟨hlen, List.all_eq_true.mp hhex⟩
  · simp [isCreatedAtShape, strftimeCreatedAt, pad2, pad4, String.toList,
      digitChar_mod10_isDigit]

/-- Witness for C8 (amended): a concrete clock and suffix produce a
well-shaped identifier, timestamp, and document layout. -/
theorem save_form_response_spec_witness :
    isFormIdShape (save_form_response ⟨12, 10, 2026, 9, 30⟩ "abcd1234"
        Json.null).1 = true ∧
    topKeys (save_form_response ⟨12, 10, 2026, 9, 30⟩ "abcd1234"
        Json.null).2 = ["form_id", "timestamp", "form_content"] ∧
    getField (save_form_response ⟨12, 10, 2026, 9, 30⟩ "abcd1234"
        Json.null).2 "timestamp" =
      some (Json.obj [("created_at",
        Json.str (String.mk (strftimeCreatedAt ⟨12, 10, 2026, 9, 30⟩)))]) ∧
    isCreatedAtShape (String.mk (strftimeCreatedAt ⟨12, 10, 2026, 9, 30⟩))
      = true :=
  save_form_response_spec ⟨12, 10, 2026, 9, 30⟩ "abcd1234" Json.null
    (by decide) (by decide) (by decide) (by decide) (by decide) rfl rfl

/-- Rebuilding a string from its characters is the identity. -/
theorem mk_toList_eq (s : String) : String.mk s.toList = s := rfl

/-- Characters of split pieces are never delimiters (given a delimiter-free
accumulator). -/
theorem splitCharsAux_all (d : Char → Bool) :
    ∀ cs acc, (∀ c ∈ acc, d c = false) →
      ∀ p ∈ splitCharsAux d acc cs, ∀ c ∈ p.toList, d c = false := by
  intro cs
  induction cs with
  | nil =>
    intro acc hacc p hp c hc
    simp only [splitCharsAux, List.mem_singleton] at hp
    subst hp
    exact hacc c (List.mem_reverse.mp hc)
  | cons x cs ih =>
    intro acc hacc p hp c hc
    simp only [splitCharsAux] at hp
    by_cases hx : d x = true
    · rw [if_pos hx] at hp
      rcases List.mem_cons.mp hp with h | h
      · subst h
        exact hacc c (List.mem_reverse.mp hc)
      · exact ih [] (by intro y hy; cases hy) p h c hc
    · rw [if_neg hx] at hp
      refine ih (x :: acc) ?_ p hp c hc
      intro y hy
      rcases List.mem_cons.mp hy with h | h
      · subst h
        exact Bool.not_eq_true (d y) ▸ hx
      · exact hacc y h

/-- One split step over a non-delimiter character. -/
theorem splitCharsAux_cons_neg (d : Char → Bool) (acc : List Char) (c : Char)
    (cs : List Char) (hc : d c = false) :
    splitCharsAux d acc (c :: cs) = splitCharsAux d (c :: acc) cs := by
  simp [splitCharsAux, hc]

/-- One split step over a delimiter character. -/
theorem splitCharsAux_cons_pos (d : Char → Bool) (acc : List Char) (c : Char)
    (cs : List Char) (hc : d c = true) :
    splitCharsAux d acc (c :: cs) =
      String.mk acc.reverse :: splitCharsAux d [] cs := by
  simp [splitCharsAux, hc]

/-- A delimiter-free input forms a single piece. -/
theorem splitCharsAux_no_delim (d : Char → Bool) :
    ∀ l acc, (∀ c ∈ l, d c = false) →
      splitCharsAux d acc l = [String.mk (acc.reverse ++ l)] := by
  intro l
  induction l with
  | nil => intro acc _; simp [splitCharsAux]
  | cons c l ih =>
    intro acc h
    rw [splitCharsAux_cons_neg d acc c l (h c (List.mem_cons_self c l)),
      ih (c :: acc) (fun y hy => h y (List.mem_cons_of_mem c hy))]
    simp

/-- Splitting walks over a delimiter-free prefix by accumulating it. -/
theorem splitCharsAux_append (d : Char → Bool) (l1 : List Char) :
    ∀ acc l2, (∀ c ∈ l1, d c = false) →
      splitCharsAux d acc (l1 ++ l2) =
        splitCharsAux d (l1.reverse ++ acc) l2 := by
  induction l1 with
  | nil => intro acc l2 _; simp
  | cons x l1 ih =>
    intro acc l2 h
    have hx : d x = false := h x (List.mem_cons_self x l1)
    rw [List.cons_append, splitCharsAux_cons_neg d acc x (l1 ++ l2) hx,
      ih (x :: acc) l2 (fun c hc => h c (List.mem_cons_of_mem x hc))]
    simp [List.append_assoc]

/-- Splitting the slash-join of delimiter-free components recovers the
components. -/
theorem splitChars_joinComps (ps : List String) (hne : ps ≠ [])
    (hchars : ∀ x ∈ ps, ∀ c ∈ x.toList, (fun c => (c = '/' : Bool)) c = false) :
    splitChars (fun c => c = '/') (joinComps ps) = ps := by
  induction ps with
  | nil => exact absurd rfl hne
  | cons x ps ih =>
    cases ps with
    | nil =>
      show splitCharsAux (fun c => c = '/') [] x.toList = [x]
      rw [splitCharsAux_no_delim (fun c => c = '/') x.toList []
        (hchars x (List.mem_singleton.mpr rfl))]
      rw [List.reverse_nil, List.nil_append, mk_toList_eq]
    | cons y ps =>
      have hx := hchars x (List.mem_cons_self x (y :: ps))
      have hrest : ∀ z ∈ y :: ps, ∀ c ∈ z.toList,
          (fun c => (c = '/' : Bool)) c = false :=
        fun z hz => hchars z (List.mem_cons_of_mem x hz)
      have hjoin : (joinComps (x :: y :: ps)).toList =
          x.toList ++ '/' :: (joinComps (y :: ps)).toList := by
        show (x ++ "/" ++ joinComps (y :: ps)).toList = _
        simp [String.toList, String.data_append]
      show splitCharsAux (fun c => c = '/') []
        (joinComps (x :: y :: ps)).toList = x :: y :: ps
      rw [hjoin, splitCharsAux_append (fun c => c = '/') x.toList []
        ('/' :: (joinComps (y :: ps)).toList) hx,
        List.append_nil,
        splitCharsAux_cons_pos (fun c => c = '/') x.toList.reverse '/'
          (joinComps (y :: ps)).toList rfl,
        List.reverse_reverse, mk_toList_eq]
      exact congrArg (x :: ·) (ih (by simp) hrest)

/-- `normComponents` leaves a list of ordinary components (no empty, `.`,
or `..` entries) unchanged. -/
theorem normComponents_clean (ps : List String)
    (h : ∀ x ∈ ps, x ≠ "" ∧ x ≠ "." ∧ x ≠ "..") :
    normComponents ps = ps := by
  have main : ∀ qs acc, (∀ x ∈ qs, x ≠ "" ∧ x ≠ "." ∧ x ≠ "..") →
      List.foldl
        (fun acc comp =>
          if comp = "" || comp = "." then acc
          else if comp = ".." then
            match acc.getLast? with
            | some last => if last = ".." then acc ++ [".."] else acc.dropLast
            | none => acc ++ [".."]
          else acc ++ [comp])
        acc qs = acc ++ qs := by
    intro qs
    induction qs with
    | nil => intro acc _; simp
    | cons x qs ih =>
      intro acc hx
      obtain ⟨h1, h2, h3⟩ := hx x (List.mem_cons_self x qs)
      simp only [List.foldl_cons]
      rw [if_neg (by simp [h1, h2]), if_neg h3,
        ih (acc ++ [x]) (fun y hy => hx y (List.mem_cons_of_mem x hy))]
      simp
  exact main ps [] h

/-- Every entry of `normComponents ps` is either `..` or an ordinary
component of `ps`. -/
theorem normComponents_mem (ps : List String) :
    ∀ x ∈ normComponents ps,
      x = ".." ∨ (x ∈ ps ∧ x ≠ "" ∧ x ≠ "." ∧ x ≠ "..") := by
  have main : ∀ qs acc, ∀ x ∈ List.foldl
      (fun acc comp =>
        if comp = "" || comp = "." then acc
        else if comp = ".." then
          match acc.getLast? with
          | some last => if last = ".." then acc ++ [".."] else acc.dropLast
          | none => acc ++ [".."]
        else acc ++ [comp])
      acc qs,
      x ∈ acc ∨ x = ".." ∨ (x ∈ qs ∧ x ≠ "" ∧ x ≠ "." ∧ x ≠ "..") := by
    intro qs
    induction qs with
    | nil => intro acc x hx; exact Or.inl hx
    | cons y qs ih =>
      intro acc x hx
      rw [List.foldl_cons] at hx
      have step := ih _ x hx
      have lift : x ∈ qs ∧ x ≠ "" ∧ x ≠ "." ∧ x ≠ ".." →
          x ∈ y :: qs ∧ x ≠ "" ∧ x ≠ "." ∧ x ≠ ".." :=
        fun ⟨ha, hb⟩ => ⟨List.mem_cons_of_mem y ha, hb⟩
      rcases step with hmem | hrest
      · by_cases hy1 : y = "" ∨ y = "."
        · rw [if_pos (by rcases hy1 with h | h <;> simp [h])] at hmem
          exact Or.inl hmem
        · rw [if_neg (by rcases not_or.mp hy1 with ⟨h1, h2⟩; simp [h1, h2])]
            at hmem
          by_cases hy2 : y = ".."
          · rw [if_pos hy2] at hmem
            rcases hacc : acc.getLast? with _ | last
            · rw [hacc] at hmem
              have hmem2 : x ∈ acc ++ [".."] := hmem
              rcases List.mem_append.mp hmem2 with h | h
              · exact Or.inl h
              · exact Or.inr (Or.inl (List.mem_singleton.mp h))
            · rw [hacc] at hmem
              have hmem2 : x ∈
                  (if last = ".." then acc ++ [".."] else acc.dropLast) :=
                hmem
              by_cases hlast : last = ".."
              · rw [if_pos hlast] at hmem2
                rcases List.mem_append.mp hmem2 with h | h
                · exact Or.inl h
                · exact Or.inr (Or.inl (List.mem_singleton.mp h))
              · rw [if_neg hlast] at hmem2
                exact Or.inl ((List.dropLast_sublist _).subset hmem2)
          · rw [if_neg hy2] at hmem
            rcases List.mem_append.mp hmem with h | h
            · exact Or.inl h
            · rcases not_or.mp hy1 with ⟨h1, h2⟩
              refine Or.inr (Or.inr ?_)
              rw [List.mem_singleton.mp h]
              exact ⟨List.mem_cons_self y qs, h1, h2, hy2⟩
      · rcases hrest with h | h
        · exact Or.inr (Or.inl h)
        · exact Or.inr (Or.inr (lift h))
  intro x hx
  rcases main ps [] x hx with hmem | h
  · cases hmem
  · exact h

/-- C10 counterexample: a relative path with leading `..` components
defeats the containment — the code does prepend `data/form_builder`, but
the written path resolves outside that directory (here to `x` in the
working directory). -/
theorem write_json_form_escape_counterexample :
    write_json_form_path "../../x" = "data/form_builder/../../x" ∧
    posixNormpath (write_json_form_path "../../x") = "x" ∧
    underDataFormBuilder (posixNormpath (write_json_form_path "../../x")) =
      false :=
  ⟨rfl, rfl, rfl⟩

/-- C10 (amended): `write_json_form` prepends the `data/form_builder`
prefix exactly when the first two components of the normalized path are
not `data` followed by `form_builder`, and writes a path already beginning
with those two components as given; for every relative path whose
normalized form has no `..` component, the written path stays under
`data/form_builder` even after resolution — but a path with leading `..`
components can still escape the directory (see the counterexample). -/
theorem write_json_form_path_spec (p : String)
    (hres : ".." ∉ normComponents (splitChars (fun c => c = '/') p)) :
    ((splitChars (fun c => c = '/') (posixNormpath p)).take 2 ≠
        ["data", "form_builder"] →
      write_json_form_path p =
        "data/form_builder" ++ "/" ++ posixNormpath p) ∧
    ((splitChars (fun c => c = '/') (posixNormpath p)).take 2 =
        ["data", "form_builder"] →
      write_json_form_path p = posixNormpath p) ∧
    underDataFormBuilder (posixNormpath (write_json_form_path p)) = true := by
  refine ⟨?_, ?_, ?_⟩
  · intro hne
    simp only [write_json_form_path]
    rw [if_pos hne]
  · intro htake
    simp only [write_json_form_path]
    rw [if_neg (fun hcon => hcon htake)]
  · have good : ∀ x ∈ normComponents (splitChars (fun c => c = '/') p),
        x ≠ "" ∧ x ≠ "." ∧ x ≠ ".." := by
      intro x hxmem
      rcases normComponents_mem _ x hxmem with h | h
      · exact absurd (h ▸ hxmem) hres
      · exact ⟨h.2.1, h.2.2.1, h.2.2.2⟩
    have nodelim : ∀ x ∈ normComponents (splitChars (fun c => c = '/') p),
        ∀ c ∈ x.toList, (fun c => (c = '/' : Bool)) c = false := by
      intro x hxmem
      rcases normComponents_mem _ x hxmem with h | h
      · exact absurd (h ▸ hxmem) hres
      · exact splitCharsAux_all (fun c => c = '/') p.toList []
          (by intro y hy; cases hy) x h.1
    cases hnc : normComponents (splitChars (fun c => c = '/') p) with
    | nil =>
      have hpn : posixNormpath p = "." := by simp [posixNormpath, hnc]
      have hw : write_json_form_path p = "data/form_builder" ++ "/" ++ "." := by
        simp only [write_json_form_path]
        rw [hpn, if_pos (by decide)]
      rw [hw]
      rfl
    | cons z zs =>
      rw [hnc] at good nodelim
      have hpn : posixNormpath p = joinComps (z :: zs) := by
        simp [posixNormpath, hnc]
      have hround : splitChars (fun c => c = '/') (joinComps (z :: zs)) =
          z :: zs :=
        splitChars_joinComps (z :: zs) (by simp) nodelim
      have hnorm2 : normComponents (z :: zs) = z :: zs :=
        normComponents_clean (z :: zs) good
      by_cases htake : (splitChars (fun c => c = '/') (posixNormpath p)).take 2
          = ["data", "form_builder"]
      · have hw : write_json_form_path p = joinComps (z :: zs) := by
          simp only [write_json_form_path]
          rw [if_neg (fun hcon => hcon htake), hpn]
        rw [hw]
        have hid : posixNormpath (joinComps (z :: zs)) = joinComps (z :: zs) := by
          simp only [posixNormpath]
          rw [hround, hnorm2]
          simp
        rw [hid]
        rw [hpn, hround] at htake
        simp only [underDataFormBuilder]
        rw [hround]
        simp [htake]
      · have hw : write_json_form_path p =
            "data/form_builder" ++ "/" ++ joinComps (z :: zs) := by
          simp only [write_json_form_path]
          rw [if_pos htake, hpn]
        have hfinal : "data/form_builder" ++ "/" ++ joinComps (z :: zs) =
            joinComps ("data" :: "form_builder" :: z :: zs) := by
          show _ = "data" ++ "/" ++ ("form_builder" ++ "/" ++ joinComps (z :: zs))
          rw [← String.toList_inj]
          simp [String.toList, String.data_append]
        have hgood2 : ∀ x ∈ ("data" :: "form_builder" :: z :: zs),
            x ≠ "" ∧ x ≠ "." ∧ x ≠ ".." := by
          intro x hxm
          rcases List.mem_cons.mp hxm with h | h
          · subst h; refine ⟨by decide, by decide, by decide⟩
          rcases List.mem_cons.mp h with h | h
          · subst h; refine ⟨by decide, by decide, by decide⟩
          · exact good x h
        have hnodelim2 : ∀ x ∈ ("data" :: "form_builder" :: z :: zs),
            ∀ c ∈ x.toList, (fun c => (c = '/' : Bool)) c = false := by
          intro x hxm
          rcases List.mem_cons.mp hxm with h | h
          · subst h; decide
          rcases List.mem_cons.mp h with h | h
          · subst h; decide
          · exact nodelim x h
        have hround2 : splitChars (fun c => c = '/')
            (joinComps ("data" :: "form_builder" :: z :: zs)) =
            "data" :: "form_builder" :: z :: zs :=
          splitChars_joinComps _ (by simp) hnodelim2
        have hnorm3 : normComponents ("data" :: "form_builder" :: z :: zs) =
            "data" :: "form_builder" :: z :: zs :=
          normComponents_clean _ hgood2
        rw [hw, hfinal]
        have hid2 : posixNormpath
            (joinComps ("data" :: "form_builder" :: z :: zs)) =
            joinComps ("data" :: "form_builder" :: z :: zs) := by
          simp only [posixNormpath]
          rw [hround2, hnorm3]
          simp
        rw [hid2]
        simp only [underDataFormBuilder]
        rw [hround2]
        simp

/-- Witness for C10 (amended): a concrete plain filename is placed (and
stays) under `data/form_builder`. -/
theorem write_json_form_path_spec_witness :
    underDataFormBuilder (posixNormpath (write_json_form_path "myform.json"))
      = true :=
  (write_json_form_path_spec "myform.json" (by decide)).2.2

end FormBuilder
